import Mathlib

/-!
Verification of the OSIO warranty/order bot (`src/bot.py`).

The development shallowly embeds the bot's pure core: the JSON record
store (`_load` / `_save`), the identifier generator (`next_ticket_id`,
`next_order_id`), the purchase flow (`buy_name` … `buy_delivery`), the
warranty flow (`w_serial`, `w_issue`, `w_remote`, `w_schedule_remote`)
and the six stage-advance callbacks (`w_progress`).

Python dictionaries are embedded as association lists with Python's
in-place-update semantics; text is embedded as `String` with explicit
`List Char` manipulation; timestamps are opaque strings ordered
lexicographically, exactly as `sorted(..., key=lambda x: x[1]["created_at"])`
orders ISO timestamps.  The `json` encoder/decoder that `_save` / `_load`
delegate to is embedded as a concrete, verified renderer/parser pair over
the value grammar the bot actually stores (strings, integers, booleans,
arrays, objects).
-/

namespace OsioBot

/-! ## Python dict as association list

`alookup` is `d.get(k)` / `k in d`; `aset` is `d[k] = v`: it overwrites the
value in place when the key is present (keeping its position, as CPython
dicts do) and appends a new binding otherwise. -/

def alookup {α : Type} : List (String × α) → String → Option α
  | [], _ => none
  | (k, v) :: rest, key => if k = key then some v else alookup rest key

def aset {α : Type} : List (String × α) → String → α → List (String × α)
  | [], key, v => [(key, v)]
  | (k, w) :: rest, key, v =>
      if k = key then (k, v) :: rest else (k, w) :: aset rest key v

theorem alookup_aset_self {α : Type} (d : List (String × α)) (k : String) (v : α) :
    alookup (aset d k v) k = some v := by
  induction d with
  | nil => simp [aset, alookup]
  | cons p rest ih =>
      obtain ⟨k2, w⟩ := p
      by_cases h : k2 = k
      · simp [aset, alookup, h]
      · simp [aset, alookup, h, ih]

theorem alookup_aset_other {α : Type} (d : List (String × α)) (k k2 : String) (v : α)
    (hne : k2 ≠ k) : alookup (aset d k v) k2 = alookup d k2 := by
  have hne2 : ¬k = k2 := fun h => hne h.symm
  induction d with
  | nil => simp [aset, alookup, hne2]
  | cons p rest ih =>
      obtain ⟨k3, w⟩ := p
      by_cases h : k3 = k
      · subst h
        have : ¬k3 = k2 := hne2
        simp [aset, alookup, this]
      · by_cases h2 : k3 = k2
        · subst h2
          simp [aset, alookup, h]
        · simp [aset, alookup, h, h2, ih]

/-! ## Text helpers

`stripChars` is Python's `str.strip()` (drop whitespace at both ends);
`strip` packages it for `String`.  `prefixCheck` is `str.startswith`. -/

def stripChars (cs : List Char) : List Char :=
  ((cs.dropWhile Char.isWhitespace).reverse.dropWhile Char.isWhitespace).reverse

def strip (s : String) : String := String.mk (stripChars s.data)

def prefixCheck : List Char → List Char → Bool
  | [], _ => true
  | _ :: _, [] => false
  | a :: as, b :: bs => a = b && prefixCheck as bs

def strStarts (s p : String) : Bool := prefixCheck p.data s.data

/-- `re.sub(r"\s+", "", text.upper())` from `w_serial`: uppercase, then drop
every whitespace character. -/
def normalizeSerial (s : String) : String :=
  String.mk ((s.data.map Char.toUpper).filter (fun c => !c.isWhitespace))

/-! ## The e-mail pattern

`buy_email` accepts `email` iff `re.match(r"[^@]+@[^@]+\.[^@]+", email)`
succeeds.  `re.match` anchors at the start only, so the pattern matches iff
the string decomposes as: one or more non-`@` characters, an `@`, then a
prefix of the remainder of the shape `[^@]+ "." [^@]`, with arbitrary
trailing characters.  `emailTail` scans for the dot of `[^@]+\.[^@]+`
(backtracking over the greedy `[^@]+`), `emailAfterLocal` scans the local
part up to the first `@`. -/

def emailTail : List Char → Bool
  | a :: b :: c :: rest =>
      decide (a ≠ '@') && ((decide (b = '.') && decide (c ≠ '@')) || emailTail (b :: c :: rest))
  | _ => false

def emailAfterLocal : List Char → Bool
  | [] => false
  | c :: rest => if c = '@' then emailTail rest else emailAfterLocal rest

def emailMatch : List Char → Bool
  | [] => false
  | c :: rest => decide (c ≠ '@') && emailAfterLocal rest

def email_ok (s : String) : Bool := emailMatch s.data

example : email_ok "a@b.co" = true := by decide
example : email_ok "not-an-email" = false := by decide
example : email_ok "a@b.c@d" = true := by decide

/-! ## JSON values

The bot persists orders and tickets with `json.dump` and reads them back
with `json.load` (`_save` / `_load`).  `Val` is the grammar of values the
bot actually stores: strings, integers, booleans, arrays and objects.
`renderVal` is the encoder (compact rendering; `json.dump`'s `indent=2`
whitespace is cosmetic and not value-relevant), `pVal` the decoder.
Escapes cover exactly what the encoder emits: `\"`, `\\` and `\u00XX` for
control characters. -/

inductive Val where
  | str (s : String)
  | int (n : Int)
  | bool (b : Bool)
  | arr (xs : List Val)
  | obj (kvs : List (String × Val))

def digitChar (d : Nat) : Char := Char.ofNat (48 + d)

def digitVal (c : Char) : Nat := c.toNat - 48

/-- Decimal digits of `n`, most significant first; the first argument is
recursion fuel (`n` itself suffices). -/
def natCharsAux : Nat → Nat → List Char → List Char
  | 0, _, acc => acc
  | _ + 1, 0, acc => acc
  | fuel + 1, n + 1, acc =>
      natCharsAux fuel ((n + 1) / 10) (digitChar ((n + 1) % 10) :: acc)

def natChars (n : Nat) : List Char := if n = 0 then ['0'] else natCharsAux n n []

def intChars : Int → List Char
  | .ofNat n => natChars n
  | .negSucc n => '-' :: natChars (n + 1)

def hexDigitChar (d : Nat) : Char :=
  if d < 10 then Char.ofNat (48 + d) else Char.ofNat (87 + d)

def hexVal (c : Char) : Option Nat :=
  if 48 ≤ c.toNat ∧ c.toNat ≤ 57 then some (c.toNat - 48)
  else if 97 ≤ c.toNat ∧ c.toNat ≤ 102 then some (c.toNat - 87)
  else if 65 ≤ c.toNat ∧ c.toNat ≤ 70 then some (c.toNat - 55)
  else none

def escapeChar (c : Char) : List Char :=
  if c = '"' then ['\\', '"']
  else if c = '\\' then ['\\', '\\']
  else if c.toNat < 32 then
    ['\\', 'u', '0', '0', hexDigitChar (c.toNat / 16), hexDigitChar (c.toNat % 16)]
  else [c]

def escapeList : List Char → List Char
  | [] => []
  | c :: cs => escapeChar c ++ escapeList cs

def renderStr (s : String) : List Char := '"' :: (escapeList s.data ++ ['"'])

mutual

def renderVal : Val → List Char
  | .str s => renderStr s
  | .int n => intChars n
  | .bool b => if b then ['t', 'r', 'u', 'e'] else ['f', 'a', 'l', 's', 'e']
  | .arr xs => '[' :: renderElems xs
  | .obj kvs => '{' :: renderMembers kvs

/-- Elements of an array, finished by the closing bracket. -/
def renderElems : List Val → List Char
  | [] => [']']
  | v :: vs => renderVal v ++ renderElemsTail vs

/-- What follows a rendered element: the closing bracket, or a comma and
the remaining elements. -/
def renderElemsTail : List Val → List Char
  | [] => [']']
  | v :: vs => ',' :: (renderVal v ++ renderElemsTail vs)

/-- `"key":value` members of an object, finished by the closing brace. -/
def renderMembers : List (String × Val) → List Char
  | [] => ['}']
  | (k, v) :: kvs => renderStr k ++ ':' :: (renderVal v ++ renderMembersTail kvs)

/-- What follows a rendered member: the closing brace, or a comma and the
remaining members. -/
def renderMembersTail : List (String × Val) → List Char
  | [] => ['}']
  | (k, v) :: kvs => ',' :: (renderStr k ++ ':' :: (renderVal v ++ renderMembersTail kvs))

end

/-! Sizes drive the fuel needed by the parser. -/

mutual

def vsize : Val → Nat
  | .str _ => 1
  | .int _ => 1
  | .bool _ => 1
  | .arr xs => 2 + lsize xs
  | .obj kvs => 2 + msize kvs

def lsize : List Val → Nat
  | [] => 0
  | v :: vs => 1 + vsize v + lsize vs

def msize : List (String × Val) → Nat
  | [] => 0
  | (_, v) :: kvs => 2 + vsize v + msize kvs

end

/-! The decoder. -/

def pNat (cs : List Char) : Option (Nat × List Char) :=
  let ds := cs.takeWhile Char.isDigit
  if ds.isEmpty then none
  else some (ds.foldl (fun acc c => 10 * acc + digitVal c) 0, cs.dropWhile Char.isDigit)

mutual

def pStrBody : List Char → Option (List Char × List Char)
  | [] => none
  | c :: rest =>
    if c = '"' then some ([], rest)
    else if c = '\\' then pEscape rest
    else (pStrBody rest).map (fun p => (c :: p.1, p.2))

/-- Continuation after a backslash inside a string literal. -/
def pEscape : List Char → Option (List Char × List Char)
  | '"' :: r => (pStrBody r).map (fun p => ('"' :: p.1, p.2))
  | '\\' :: r => (pStrBody r).map (fun p => ('\\' :: p.1, p.2))
  | 'u' :: h1 :: h2 :: h3 :: h4 :: r =>
      match hexVal h1, hexVal h2, hexVal h3, hexVal h4 with
      | some a, some b, some c2, some d =>
          (pStrBody r).map
            (fun p => (Char.ofNat (((a * 16 + b) * 16 + c2) * 16 + d) :: p.1, p.2))
      | _, _, _, _ => none
  | _ => none

end

def pTrue : List Char → Option (Val × List Char)
  | 'r' :: 'u' :: 'e' :: r => some (Val.bool true, r)
  | _ => none

def pFalse : List Char → Option (Val × List Char)
  | 'a' :: 'l' :: 's' :: 'e' :: r => some (Val.bool false, r)
  | _ => none

mutual

def pVal : Nat → List Char → Option (Val × List Char)
  | 0, _ => none
  | _ + 1, [] => none
  | fuel + 1, c :: rest =>
      if c = '"' then (pStrBody rest).map (fun p => (Val.str (String.mk p.1), p.2))
      else if c = 't' then pTrue rest
      else if c = 'f' then pFalse rest
      else if c = '[' then (pElems fuel rest).map (fun p => (Val.arr p.1, p.2))
      else if c = '{' then (pMembers fuel rest).map (fun p => (Val.obj p.1, p.2))
      else if c = '-' then (pNat rest).map (fun p => (Val.int (-(p.1 : Int)), p.2))
      else if c.isDigit then (pNat (c :: rest)).map (fun p => (Val.int (p.1 : Int), p.2))
      else none

/-- After the opening bracket: a closing bracket, or one element and its
continuation. -/
def pElems : Nat → List Char → Option (List Val × List Char)
  | 0, _ => none
  | _ + 1, [] => none
  | fuel + 1, c :: rest =>
      if c = ']' then some ([], rest)
      else (pVal fuel (c :: rest)).bind
        (fun vr => (pElemsTail fuel vr.2).map (fun p => (vr.1 :: p.1, p.2)))

/-- After an element: the closing bracket, or a comma and more elements. -/
def pElemsTail : Nat → List Char → Option (List Val × List Char)
  | 0, _ => none
  | _ + 1, [] => none
  | fuel + 1, c :: rest =>
      if c = ']' then some ([], rest)
      else if c = ',' then
        (pVal fuel rest).bind
          (fun vr => (pElemsTail fuel vr.2).map (fun p => (vr.1 :: p.1, p.2)))
      else none

/-- After the opening brace: a closing brace, or one `"key":value` member
and its continuation. -/
def pMembers : Nat → List Char → Option (List (String × Val) × List Char)
  | 0, _ => none
  | _ + 1, [] => none
  | fuel + 1, c :: rest =>
      if c = '}' then some ([], rest)
      else if c = '"' then
        (pStrBody rest).bind (fun kr => pMemberRest fuel (String.mk kr.1) kr.2)
      else none

/-- After a member key: a colon, the value, and the member continuation. -/
def pMemberRest : Nat → String → List Char → Option (List (String × Val) × List Char)
  | 0, _, _ => none
  | _ + 1, _, [] => none
  | fuel + 1, k, c :: rest =>
      if c = ':' then
        (pVal fuel rest).bind
          (fun vr => (pMembersTail fuel vr.2).map (fun p => ((k, vr.1) :: p.1, p.2)))
      else none

/-- After a member: the closing brace, or a comma and more members. -/
def pMembersTail : Nat → List Char → Option (List (String × Val) × List Char)
  | 0, _ => none
  | _ + 1, [] => none
  | fuel + 1, c :: rest =>
      if c = '}' then some ([], rest)
      else if c = ',' then pMembersNext fuel rest
      else none

/-- After a comma between members: the next `"key":value` member. -/
def pMembersNext : Nat → List Char → Option (List (String × Val) × List Char)
  | 0, _ => none
  | _ + 1, [] => none
  | fuel + 1, c :: rest =>
      if c = '"' then
        (pStrBody rest).bind (fun kr => pMemberRest fuel (String.mk kr.1) kr.2)
      else none

end

/-- `json.load` of a whole document: the parse must consume the input
(Python raises on trailing data, which `_load` turns into `{}`). -/
def parseTop (cs : List Char) : Option Val :=
  match pVal (2 * cs.length + 2) cs with
  | some (v, []) => some v
  | _ => none

example : parseTop (renderVal (Val.obj [("a", Val.int 14999)])) =
    some (Val.obj [("a", Val.int 14999)]) := rfl
example : parseTop (renderVal (Val.arr [Val.str "x,\"y\"", Val.bool true, Val.int (-7)])) =
    some (Val.arr [Val.str "x,\"y\"", Val.bool true, Val.int (-7)]) := rfl

/-! ## Decimal digit lemmas -/

theorem natCharsAux_eq_digits :
    ∀ fuel n acc, 0 < n → n ≤ fuel →
      natCharsAux fuel n acc = ((Nat.digits 10 n).map digitChar).reverse ++ acc := by
  intro fuel
  induction fuel with
  | zero => intro n acc h1 h2; omega
  | succ f ih =>
      intro n acc h1 _
      obtain ⟨m, rfl⟩ : ∃ m, n = m + 1 := ⟨n - 1, by omega⟩
      rw [natCharsAux]
      rw [Nat.digits_def' (by norm_num : (1:ℕ) < 10) h1]
      by_cases hq : (m + 1) / 10 = 0
      · rw [hq]
        cases f with
        | zero => simp [natCharsAux]
        | succ f2 => simp [natCharsAux]
      · have hle : (m + 1) / 10 ≤ f := by
          have := Nat.div_lt_self h1 (by norm_num : (1:ℕ) < 10)
          omega
        rw [ih _ _ (Nat.pos_of_ne_zero hq) hle]
        simp

theorem natChars_eq_digits (n : Nat) (h : 0 < n) :
    natChars n = ((Nat.digits 10 n).map digitChar).reverse := by
  rw [natChars, if_neg (by omega)]
  rw [natCharsAux_eq_digits n n [] h (le_refl n)]
  simp

theorem digitChar_isDigit : ∀ d, d < 10 → (digitChar d).isDigit = true := by decide

theorem digitVal_digitChar : ∀ d, d < 10 → digitVal (digitChar d) = d := by decide

theorem natChars_all_digits (n : Nat) : ∀ c ∈ natChars n, c.isDigit = true := by
  by_cases h : n = 0
  · subst h; decide
  · rw [natChars_eq_digits n (Nat.pos_of_ne_zero h)]
    intro c hc
    rw [List.mem_reverse, List.mem_map] at hc
    obtain ⟨d, hd, rfl⟩ := hc
    exact digitChar_isDigit d (Nat.digits_lt_base (by norm_num) hd)

theorem natChars_ne_nil (n : Nat) : natChars n ≠ [] := by
  by_cases h : n = 0
  · subst h; simp [natChars]
  · rw [natChars_eq_digits n (Nat.pos_of_ne_zero h)]
    simp [Nat.digits_ne_nil_iff_ne_zero.mpr h]

theorem foldl_decimal_digits :
    ∀ (ds : List Nat) (acc : Nat), (∀ d ∈ ds, d < 10) →
      List.foldl (fun a c => 10 * a + digitVal c) acc ((ds.map digitChar).reverse)
        = acc * 10 ^ ds.length + Nat.ofDigits 10 ds := by
  intro ds
  induction ds with
  | nil => intro acc _; simp [Nat.ofDigits_nil]
  | cons d ds ih =>
      intro acc hall
      have hd : d < 10 := hall d (by simp)
      simp only [List.map_cons, List.reverse_cons, List.foldl_append, List.foldl_cons,
        List.foldl_nil]
      rw [ih acc (fun x hx => hall x (by simp [hx]))]
      rw [digitVal_digitChar d hd]
      rw [Nat.ofDigits_cons]
      simp [pow_succ]
      ring

theorem foldl_decimal_natChars (n : Nat) :
    List.foldl (fun a c => 10 * a + digitVal c) 0 (natChars n) = n := by
  by_cases h : n = 0
  · subst h; decide
  · rw [natChars_eq_digits n (Nat.pos_of_ne_zero h)]
    rw [foldl_decimal_digits (Nat.digits 10 n) 0
      (fun d hd => Nat.digits_lt_base (by norm_num) hd)]
    simp [Nat.ofDigits_digits]

/-! ## takeWhile / dropWhile across an append -/

theorem takeWhile_all_append (p : Char → Bool) :
    ∀ (l1 l2 : List Char), (∀ c ∈ l1, p c = true) →
      (match l2 with | [] => True | c :: _ => p c = false) →
      (l1 ++ l2).takeWhile p = l1 ∧ (l1 ++ l2).dropWhile p = l2 := by
  intro l1
  induction l1 with
  | nil =>
      intro l2 _ h2
      cases l2 with
      | nil => simp
      | cons c cs => simp_all [List.takeWhile, List.dropWhile]
  | cons a l1 ih =>
      intro l2 h1 h2
      have ha : p a = true := h1 a (by simp)
      have := ih l2 (fun c hc => h1 c (by simp [hc])) h2
      simp [List.takeWhile, List.dropWhile, ha, this.1, this.2]

/-- Head-guard on the residual input: the character after a rendered
number must not be a digit (inside arrays and objects it is one of
`,`, `]`, `}`; at top level the input ends). -/
def headNotDigit : List Char → Prop
  | [] => True
  | c :: _ => c.isDigit = false

theorem pNat_natChars (n : Nat) (rest : List Char) (hrest : headNotDigit rest) :
    pNat (natChars n ++ rest) = some (n, rest) := by
  have hsplit := takeWhile_all_append Char.isDigit (natChars n) rest
    (natChars_all_digits n) (by cases rest with | nil => trivial | cons c cs => exact hrest)
  rw [pNat]
  simp only [hsplit.1, hsplit.2]
  rw [if_neg (by simp [List.isEmpty_iff, natChars_ne_nil n])]
  rw [foldl_decimal_natChars n]

/-! ## String-body round trip -/

theorem hexVal_hexDigitChar : ∀ d, d < 16 → hexVal (hexDigitChar d) = some d := by decide

theorem pStrBody_escape : ∀ (cs rest : List Char),
    pStrBody (escapeList cs ++ '"' :: rest) = some (cs, rest) := by
  intro cs
  induction cs with
  | nil => intro rest; simp [escapeList, pStrBody]
  | cons c cs ih =>
      intro rest
      rw [escapeList]
      by_cases h1 : c = '"'
      · subst h1
        simp [escapeChar, pStrBody, pEscape, ih]
      · by_cases h2 : c = '\\'
        · subst h2
          simp [escapeChar, pStrBody, pEscape, ih]
        · by_cases h3 : c.toNat < 32
          · rw [escapeChar, if_neg h1, if_neg h2, if_pos h3]
            have hhi : hexVal (hexDigitChar (c.toNat / 16)) = some (c.toNat / 16) :=
              hexVal_hexDigitChar _ (by omega)
            have hlo : hexVal (hexDigitChar (c.toNat % 16)) = some (c.toNat % 16) :=
              hexVal_hexDigitChar _ (by omega)
            have h0 : hexVal '0' = some 0 := rfl
            simp [pStrBody, pEscape, h0, hhi, hlo, ih]
            rw [show c.toNat / 16 * 16 + c.toNat % 16 = c.toNat from by omega,
              Char.ofNat_toNat]
          · rw [escapeChar, if_neg h1, if_neg h2, if_neg h3]
            simp [pStrBody, h1, h2, ih]

/-! ## Size and head-character facts -/

theorem vsize_pos : ∀ v, 1 ≤ vsize v := by
  intro v
  cases v <;> simp [vsize] <;> omega

theorem lsize_pos (xs : List Val) (h : xs ≠ []) : 1 ≤ lsize xs := by
  cases xs with
  | nil => exact absurd rfl h
  | cons v vs => simp [lsize]; omega

theorem msize_pos (kvs : List (String × Val)) (h : kvs ≠ []) : 1 ≤ msize kvs := by
  cases kvs with
  | nil => exact absurd rfl h
  | cons kv kvs => obtain ⟨k, v⟩ := kv; simp [msize]; omega

theorem isDigit_char_facts (c : Char) (h : c.isDigit = true) :
    c ≠ '"' ∧ c ≠ 't' ∧ c ≠ 'f' ∧ c ≠ '[' ∧ c ≠ '{' ∧ c ≠ '-' ∧ c ≠ ']' ∧ c ≠ '}' := by
  refine ⟨?_, ?_, ?_, ?_, ?_, ?_, ?_, ?_⟩ <;>
    (intro hc; subst hc; simp [Char.isDigit] at h)

/-! ## Fuel bounds: the parser needs at most `2 * length` fuel -/

theorem renderStr_len (k : String) : 2 ≤ (renderStr k).length := by
  rw [renderStr]
  simp

theorem size_le_two_mul_len (n : Nat) :
    (∀ v, vsize v ≤ n → vsize v ≤ 2 * (renderVal v).length) ∧
    (∀ xs, lsize xs ≤ n → lsize xs + 1 ≤ 2 * (renderElems xs).length) ∧
    (∀ xs, lsize xs ≤ n → lsize xs + 2 ≤ 2 * (renderElemsTail xs).length) ∧
    (∀ kvs, msize kvs ≤ n → msize kvs + 1 ≤ 2 * (renderMembers kvs).length) ∧
    (∀ kvs, msize kvs ≤ n → msize kvs + 2 ≤ 2 * (renderMembersTail kvs).length) := by
  induction n using Nat.strong_induction_on with
  | _ n ih =>
    refine ⟨?_, ?_, ?_, ?_, ?_⟩
    · intro v hv
      cases v with
      | str s => rw [renderVal]; have := renderStr_len s; simp [vsize]; omega
      | int m =>
          have h1 : 1 ≤ (intChars m).length := by
            cases m with
            | ofNat k =>
                rw [intChars]
                cases hk : natChars k with
                | nil => exact absurd hk (natChars_ne_nil k)
                | cons c cs => simp
            | negSucc k => rw [intChars]; simp
          rw [renderVal]; simp [vsize]; omega
      | bool b => cases b <;> simp [renderVal, vsize]
      | arr xs =>
          have hlt : lsize xs < n := by have := vsize_pos (Val.arr xs); simp [vsize] at hv ⊢; omega
          have hB := (ih (lsize xs) hlt).2.1 xs le_rfl
          rw [renderVal]; simp [vsize] at hv ⊢; omega
      | obj kvs =>
          have hlt : msize kvs < n := by simp [vsize] at hv; omega
          have hD := (ih (msize kvs) hlt).2.2.2.1 kvs le_rfl
          rw [renderVal]; simp [vsize] at hv ⊢; omega
    · intro xs hxs
      cases xs with
      | nil => simp [lsize, renderElems]
      | cons v vs =>
          simp [lsize] at hxs
          have hvlt : vsize v < n := by have := vsize_pos v; omega
          have hllt : lsize vs < n := by have := vsize_pos v; omega
          have hA := (ih (vsize v) hvlt).1 v le_rfl
          have hC := (ih (lsize vs) hllt).2.2.1 vs le_rfl
          rw [renderElems]; simp [lsize]; simp at hA hC; omega
    · intro xs hxs
      cases xs with
      | nil => simp [lsize, renderElemsTail]
      | cons v vs =>
          simp [lsize] at hxs
          have hvlt : vsize v < n := by have := vsize_pos v; omega
          have hllt : lsize vs < n := by have := vsize_pos v; omega
          have hA := (ih (vsize v) hvlt).1 v le_rfl
          have hC := (ih (lsize vs) hllt).2.2.1 vs le_rfl
          rw [renderElemsTail]; simp [lsize]; simp at hA hC; omega
    · intro kvs hkvs
      cases kvs with
      | nil => simp [msize, renderMembers]
      | cons kv kvs =>
          obtain ⟨k, v⟩ := kv
          simp [msize] at hkvs
          have hvlt : vsize v < n := by have := vsize_pos v; omega
          have hmlt : msize kvs < n := by have := vsize_pos v; omega
          have hA := (ih (vsize v) hvlt).1 v le_rfl
          have hE := (ih (msize kvs) hmlt).2.2.2.2 kvs le_rfl
          have hK := renderStr_len k
          rw [renderMembers]; simp [msize]; simp at hA hE; omega
    · intro kvs hkvs
      cases kvs with
      | nil => simp [msize, renderMembersTail]
      | cons kv kvs =>
          obtain ⟨k, v⟩ := kv
          simp [msize] at hkvs
          have hvlt : vsize v < n := by have := vsize_pos v; omega
          have hmlt : msize kvs < n := by have := vsize_pos v; omega
          have hA := (ih (vsize v) hvlt).1 v le_rfl
          have hE := (ih (msize kvs) hmlt).2.2.2.2 kvs le_rfl
          have hK := renderStr_len k
          rw [renderMembersTail]; simp [msize]; simp at hA hE; omega

theorem vsize_le_two_mul_renderLen (v : Val) : vsize v ≤ 2 * (renderVal v).length :=
  (size_le_two_mul_len (vsize v)).1 v le_rfl

theorem renderVal_head (v : Val) :
    ∃ c cs, renderVal v = c :: cs ∧
      (c = '"' ∨ c = 't' ∨ c = 'f' ∨ c = '[' ∨ c = '{' ∨ c = '-' ∨ c.isDigit = true) := by
  cases v with
  | str s => exact ⟨'"', _, by rw [renderVal, renderStr], Or.inl rfl⟩
  | int n =>
      cases n with
      | ofNat m =>
          obtain ⟨c, cs, hcs⟩ : ∃ c cs, natChars m = c :: cs := by
            cases hn : natChars m with
            | nil => exact absurd hn (natChars_ne_nil m)
            | cons c cs => exact ⟨c, cs, rfl⟩
          have hd : c.isDigit = true := by
            have := natChars_all_digits m c
            rw [hcs] at this
            exact this (by simp)
          exact ⟨c, cs, by rw [renderVal, intChars, hcs], by tauto⟩
      | negSucc m => exact ⟨'-', _, by rw [renderVal, intChars], by tauto⟩
  | bool b =>
      cases b with
      | true => exact ⟨'t', ['r', 'u', 'e'], rfl, by tauto⟩
      | false => exact ⟨'f', ['a', 'l', 's', 'e'], rfl, by tauto⟩
  | arr xs => exact ⟨'[', _, by rw [renderVal], by tauto⟩
  | obj kvs => exact ⟨'{', _, by rw [renderVal], by tauto⟩

theorem mk_data (s : String) : String.mk s.data = s := rfl

theorem renderVal_head_ne_rbrack (v : Val) :
    ∃ c cs, renderVal v = c :: cs ∧ ¬(c = ']') := by
  obtain ⟨c, cs, hcs, hd⟩ := renderVal_head v
  refine ⟨c, cs, hcs, ?_⟩
  rcases hd with h | h | h | h | h | h | h
  · subst h; decide
  · subst h; decide
  · subst h; decide
  · subst h; decide
  · subst h; decide
  · subst h; decide
  · exact (isDigit_char_facts c h).2.2.2.2.2.2.1

theorem headNotDigit_cons (c : Char) (l : List Char) :
    headNotDigit (c :: l) = (c.isDigit = false) := rfl

theorem headNotDigit_elemsTail (vs : List Val) (rest : List Char) :
    headNotDigit (renderElemsTail vs ++ rest) := by
  cases vs with
  | nil =>
      rw [renderElemsTail]
      simp only [List.singleton_append]
      rw [headNotDigit_cons]
      decide
  | cons w ws =>
      rw [renderElemsTail]
      simp only [List.cons_append]
      rw [headNotDigit_cons]
      decide

theorem headNotDigit_membersTail (kvs : List (String × Val)) (rest : List Char) :
    headNotDigit (renderMembersTail kvs ++ rest) := by
  cases kvs with
  | nil =>
      rw [renderMembersTail]
      simp only [List.singleton_append]
      rw [headNotDigit_cons]
      decide
  | cons kv kvs =>
      obtain ⟨k, v⟩ := kv
      rw [renderMembersTail]
      simp only [List.cons_append]
      rw [headNotDigit_cons]
      decide

theorem parse_render (fuel : Nat) :
    (∀ v rest, vsize v ≤ fuel → headNotDigit rest →
        pVal fuel (renderVal v ++ rest) = some (v, rest)) ∧
    (∀ xs rest, lsize xs + 1 ≤ fuel →
        pElems fuel (renderElems xs ++ rest) = some (xs, rest)) ∧
    (∀ xs rest, lsize xs + 2 ≤ fuel →
        pElemsTail fuel (renderElemsTail xs ++ rest) = some (xs, rest)) ∧
    (∀ kvs rest, msize kvs + 1 ≤ fuel →
        pMembers fuel (renderMembers kvs ++ rest) = some (kvs, rest)) ∧
    (∀ k v kvs rest, vsize v + msize kvs + 2 ≤ fuel →
        pMemberRest fuel k (':' :: (renderVal v ++ (renderMembersTail kvs ++ rest)))
          = some ((k, v) :: kvs, rest)) ∧
    (∀ kvs rest, msize kvs + 2 ≤ fuel →
        pMembersTail fuel (renderMembersTail kvs ++ rest) = some (kvs, rest)) ∧
    (∀ k v kvs rest, vsize v + msize kvs + 3 ≤ fuel →
        pMembersNext fuel (renderStr k ++ ':' :: (renderVal v ++ (renderMembersTail kvs ++ rest)))
          = some ((k, v) :: kvs, rest)) := by
  induction fuel using Nat.strong_induction_on with
  | _ fuel ih =>
    rcases fuel with _ | f
    · refine ⟨?_, ?_, ?_, ?_, ?_, ?_, ?_⟩ <;> intros <;> exfalso <;>
        first
          | (rename_i v _ hv _; have := vsize_pos v; omega)
          | omega
    · have ihf := ih f (Nat.lt_succ_self f)
      obtain ⟨ihV, ihE, ihET, ihM, ihMR, ihMT, ihMN⟩ := ihf
      refine ⟨?_, ?_, ?_, ?_, ?_, ?_, ?_⟩
      · -- pVal
        intro v rest hv hrest
        cases v with
        | str s =>
            rw [renderVal, renderStr]
            simp only [List.cons_append, List.append_assoc, List.singleton_append]
            rw [pVal, if_pos rfl, pStrBody_escape]
            rfl
        | int m =>
            cases m with
            | ofNat k =>
                rw [renderVal, intChars]
                obtain ⟨c, cs, hcs⟩ : ∃ c cs, natChars k = c :: cs := by
                  cases hk : natChars k with
                  | nil => exact absurd hk (natChars_ne_nil k)
                  | cons c cs => exact ⟨c, cs, rfl⟩
                have hdig : c.isDigit = true := by
                  have := natChars_all_digits k c
                  rw [hcs] at this
                  exact this (by simp)
                obtain ⟨hne1, hne2, hne3, hne4, hne5, hne6, _, _⟩ := isDigit_char_facts c hdig
                rw [hcs]
                simp only [List.cons_append]
                rw [pVal, if_neg hne1, if_neg hne2, if_neg hne3, if_neg hne4, if_neg hne5,
                  if_neg hne6, if_pos hdig]
                have hb : c :: (cs ++ rest) = natChars k ++ rest := by rw [hcs]; rfl
                rw [hb, pNat_natChars k rest hrest]
                rfl
            | negSucc k =>
                rw [renderVal, intChars]
                simp only [List.cons_append]
                rw [pVal, if_neg (by decide), if_neg (by decide), if_neg (by decide),
                  if_neg (by decide), if_neg (by decide), if_pos rfl]
                rw [pNat_natChars (k + 1) rest hrest]
                simp [Int.negSucc_eq]
        | bool b =>
            cases b with
            | true =>
                rw [show renderVal (Val.bool true) = ['t', 'r', 'u', 'e'] from rfl]
                simp only [List.cons_append, List.nil_append]
                rw [pVal, if_neg (by decide), if_pos rfl]
                rw [pTrue]
            | false =>
                rw [show renderVal (Val.bool false) = ['f', 'a', 'l', 's', 'e'] from rfl]
                simp only [List.cons_append, List.nil_append]
                rw [pVal, if_neg (by decide), if_neg (by decide), if_pos rfl]
                rw [pFalse]
        | arr xs =>
            rw [renderVal]
            simp only [List.cons_append]
            rw [pVal, if_neg (by decide), if_neg (by decide), if_neg (by decide), if_pos rfl]
            rw [ihE xs rest (by rw [vsize] at hv; omega)]
            rfl
        | obj kvs =>
            rw [renderVal]
            simp only [List.cons_append]
            rw [pVal, if_neg (by decide), if_neg (by decide), if_neg (by decide),
              if_neg (by decide), if_pos rfl]
            rw [ihM kvs rest (by rw [vsize] at hv; omega)]
            rfl
      · -- pElems
        intro xs rest hxs
        cases xs with
        | nil =>
            rw [renderElems]
            simp only [List.singleton_append]
            rw [pElems, if_pos rfl]
        | cons v vs =>
            rw [renderElems]
            obtain ⟨c, cs, hcs, hne⟩ := renderVal_head_ne_rbrack v
            rw [hcs]
            simp only [List.cons_append, List.append_assoc]
            rw [pElems, if_neg hne]
            have hb : c :: (cs ++ (renderElemsTail vs ++ rest))
                = renderVal v ++ (renderElemsTail vs ++ rest) := by rw [hcs]; rfl
            rw [hb]
            rw [lsize] at hxs
            rw [ihV v _ (by have := vsize_pos v; omega) (headNotDigit_elemsTail vs rest)]
            simp only [Option.bind]
            rw [ihET vs rest (by have := vsize_pos v; omega)]
            rfl
      · -- pElemsTail
        intro xs rest hxs
        cases xs with
        | nil =>
            rw [renderElemsTail]
            simp only [List.singleton_append]
            rw [pElemsTail, if_pos rfl]
        | cons v vs =>
            rw [renderElemsTail]
            simp only [List.cons_append, List.append_assoc]
            rw [pElemsTail, if_neg (by decide), if_pos rfl]
            rw [lsize] at hxs
            rw [ihV v _ (by have := vsize_pos v; omega) (headNotDigit_elemsTail vs rest)]
            simp only [Option.bind]
            rw [ihET vs rest (by have := vsize_pos v; omega)]
            rfl
      · -- pMembers
        intro kvs rest hkvs
        cases kvs with
        | nil =>
            rw [renderMembers]
            simp only [List.singleton_append]
            rw [pMembers, if_pos rfl]
        | cons kv kvs =>
            obtain ⟨k, v⟩ := kv
            rw [renderMembers, renderStr]
            simp only [List.cons_append, List.append_assoc, List.singleton_append]
            rw [pMembers, if_neg (by decide), if_pos rfl, pStrBody_escape]
            simp only [Option.bind]
            rw [mk_data]
            rw [msize] at hkvs
            exact ihMR k v kvs rest (by omega)
      · -- pMemberRest
        intro k v kvs rest hsz
        rw [pMemberRest, if_pos rfl]
        rw [ihV v _ (by have := vsize_pos v; omega) (headNotDigit_membersTail kvs rest)]
        simp only [Option.bind]
        rw [ihMT kvs rest (by have := vsize_pos v; omega)]
        rfl
      · -- pMembersTail
        intro kvs rest hkvs
        cases kvs with
        | nil =>
            rw [renderMembersTail]
            simp only [List.singleton_append]
            rw [pMembersTail, if_pos rfl]
        | cons kv kvs =>
            obtain ⟨k, v⟩ := kv
            rw [renderMembersTail]
            simp only [List.cons_append, List.append_assoc]
            rw [pMembersTail, if_neg (by decide), if_pos rfl]
            rw [msize] at hkvs
            exact ihMN k v kvs rest (by omega)
      · -- pMembersNext
        intro k v kvs rest hsz
        rw [renderStr]
        simp only [List.cons_append, List.append_assoc, List.singleton_append]
        rw [pMembersNext, if_pos rfl, pStrBody_escape]
        simp only [Option.bind]
        rw [mk_data]
        exact ihMR k v kvs rest (by omega)

theorem parseTop_render (v : Val) : parseTop (renderVal v) = some v := by
  rw [parseTop]
  have hle : vsize v ≤ 2 * (renderVal v).length + 2 :=
    le_trans (vsize_le_two_mul_renderLen v) (by omega)
  have h := (parse_render (2 * (renderVal v).length + 2)).1 v [] hle trivial
  rw [List.append_nil] at h
  rw [h]


/-! ## The Record Store (`_load` / `_save`)

The file system maps paths to raw contents; `os.path.exists(path)` is
`(fs path).isSome`. -/

def FS : Type := String → Option (List Char)

def fsWrite (fs : FS) (path : String) (content : List Char) : FS :=
  fun p => if p = path then some content else fs p

def DATA_DIR : String := "./data"

def ORDERS_DB : String := DATA_DIR ++ "/orders.json"

def TICKETS_DB : String := DATA_DIR ++ "/tickets.json"

/-- `_save(path, data)`: serialize the whole mapping with `json.dump` and
overwrite the file. -/
def save_db (path : String) (data : List (String × Val)) (fs : FS) : FS :=
  fsWrite fs path (renderVal (Val.obj data))

/-- `_load(path)`: `{}` when the file does not exist, else `json.load`,
with `json.JSONDecodeError` (any failed parse; here also a parse not
producing an object, which CPython would return as-is and crash on later —
the bot only ever writes objects) giving `{}`. -/
def load_db (path : String) (fs : FS) : List (String × Val) :=
  match fs path with
  | none => []
  | some cs =>
      match parseTop cs with
      | some (Val.obj m) => m
      | _ => []

/-- C7: saving a collection and loading it back yields the same mapping;
loading a missing or unparsable file yields the empty mapping rather than
an error. -/
theorem C7_store_roundtrip_and_tolerance :
    (∀ path m fs, load_db path (save_db path m fs) = m) ∧
    (∀ path fs, fs path = none → load_db path fs = []) ∧
    (∀ path fs junk, fs path = some junk → parseTop junk = none → load_db path fs = []) := by
  refine ⟨?_, ?_, ?_⟩
  · intro path m fs
    have hw : (save_db path m fs) path = some (renderVal (Val.obj m)) := by
      rw [save_db, fsWrite]
      simp
    rw [load_db, hw]
    simp [parseTop_render]
  · intro path fs h
    rw [load_db, h]
  · intro path fs junk h hp
    rw [load_db, h]
    simp [hp]

/-- Witness for C7 at concrete inputs: a one-ticket mapping survives the
round trip on an empty file system; a missing file loads as empty; the
corrupt content `{` loads as empty. -/
theorem C7_store_roundtrip_and_tolerance_witness :
    load_db TICKETS_DB (save_db TICKETS_DB
        [("T20250101-0001", Val.obj [("status", Val.str "closed")])] (fun _ => none))
      = [("T20250101-0001", Val.obj [("status", Val.str "closed")])] ∧
    load_db ORDERS_DB (fun _ => none) = [] ∧
    load_db TICKETS_DB (fsWrite (fun _ => none) TICKETS_DB ['\x7b']) = [] :=
  ⟨C7_store_roundtrip_and_tolerance.1 TICKETS_DB _ _,
   C7_store_roundtrip_and_tolerance.2.1 ORDERS_DB _ rfl,
   C7_store_roundtrip_and_tolerance.2.2 TICKETS_DB _ ['\x7b'] (by rw [fsWrite]; simp) rfl⟩

/-! ## The identifier generator -/

theorem str_append_assoc : ∀ (a b c : String), a ++ b ++ c = a ++ (b ++ c)
  | ⟨as⟩, ⟨bs⟩, ⟨cs⟩ => congrArg String.mk (List.append_assoc as bs cs)

/-- `f"{i:04d}"`: decimal digits of `i`, left-padded with zeros to at
least four characters. -/
def pad4 (n : Nat) : List Char :=
  List.replicate (4 - (natChars n).length) '0' ++ natChars n

/-- `next_ticket_id()`: `f"T{datetime.utcnow().strftime(chr(37) + 'Y' ...)}-{len(db)+1:04d}"`
with `db` the loaded tickets collection; `date` stands for the formatted
current UTC date. -/
def next_ticket_id {α : Type} (date : String) (db : List (String × α)) : String :=
  "T" ++ date ++ "-" ++ String.mk (pad4 (db.length + 1))

/-- `next_order_id()`, same shape with prefix `O` over the orders
collection. -/
def next_order_id {α : Type} (date : String) (db : List (String × α)) : String :=
  "O" ++ date ++ "-" ++ String.mk (pad4 (db.length + 1))

theorem foldl_decimal_replicate_zero (k : Nat) :
    ∀ acc, List.foldl (fun a c => 10 * a + digitVal c) acc (List.replicate k '0')
      = acc * 10 ^ k := by
  induction k with
  | zero => intro acc; simp
  | succ k ih =>
      intro acc
      rw [List.replicate_succ, List.foldl_cons, ih]
      have : digitVal '0' = 0 := rfl
      rw [this]
      ring

theorem pad4_spec (n : Nat) (h : n ≤ 9999) :
    (pad4 n).length = 4 ∧
    List.foldl (fun a c => 10 * a + digitVal c) 0 (pad4 n) = n ∧
    ∀ c ∈ pad4 n, c.isDigit = true := by
  have hlen : (natChars n).length ≤ 4 := by
    by_cases h0 : n = 0
    · subst h0; decide
    · rw [natChars_eq_digits n (Nat.pos_of_ne_zero h0)]
      simp only [List.length_reverse, List.length_map]
      have h1 := Nat.base_pow_length_digits_le 10 n (by norm_num) h0
      by_contra hcon
      have h5 : (10 : ℕ) ^ 5 ≤ 10 ^ (Nat.digits 10 n).length :=
        Nat.pow_le_pow_right (by norm_num) (by omega)
      norm_num at h5
      omega
  have hne := natChars_ne_nil n
  have hlen1 : 1 ≤ (natChars n).length := by
    cases hx : natChars n with
    | nil => exact absurd hx hne
    | cons c cs => simp
  refine ⟨?_, ?_, ?_⟩
  · rw [pad4]
    simp only [List.length_append, List.length_replicate]
    omega
  · rw [pad4, List.foldl_append, foldl_decimal_replicate_zero]
    simp only [zero_mul]
    exact foldl_decimal_natChars n
  · intro c hc
    rw [pad4, List.mem_append] at hc
    rcases hc with hc | hc
    · rw [List.eq_of_mem_replicate hc]; decide
    · exact natChars_all_digits n c hc

/-- C6: the generated identifier is
`prefix ++ date ++ "-" ++ (count+1 zero-padded to 4 digits)`, prefix `T`
for tickets and `O` for orders; the zero-padded block has length four and
decimal value `count+1` (whenever that fits in four digits), and an empty
collection yields an id ending in `-0001`. -/
theorem C6_id_generator :
    (∀ (date : String) (tdb : List (String × Nat)),
        next_ticket_id date tdb = "T" ++ date ++ "-" ++ String.mk (pad4 (tdb.length + 1)) ∧
        next_order_id date tdb = "O" ++ date ++ "-" ++ String.mk (pad4 (tdb.length + 1))) ∧
    (∀ n, n + 1 ≤ 9999 →
        (pad4 (n + 1)).length = 4 ∧
        List.foldl (fun a c => 10 * a + digitVal c) 0 (pad4 (n + 1)) = n + 1 ∧
        ∀ c ∈ pad4 (n + 1), c.isDigit = true) ∧
    (∀ (date : String) (tdb : List (String × Nat)), tdb = [] →
        next_ticket_id date tdb = ("T" ++ date) ++ "-0001" ∧
        next_order_id date tdb = ("O" ++ date) ++ "-0001") := by
  refine ⟨fun date tdb => ⟨rfl, rfl⟩, fun n h => pad4_spec (n + 1) h, ?_⟩
  intro date tdb h
  subst h
  constructor
  · rw [next_ticket_id]
    rw [show String.mk (pad4 (List.length ([] : List (String × Nat)) + 1)) = "0001" from rfl]
    rw [str_append_assoc ("T" ++ date) "-" "0001"]
    rfl
  · rw [next_order_id]
    rw [show String.mk (pad4 (List.length ([] : List (String × Nat)) + 1)) = "0001" from rfl]
    rw [str_append_assoc ("O" ++ date) "-" "0001"]
    rfl

/-- Witness for C6: on 2025-10-12 with empty collections the ids are
`T20251012-0001` and `O20251012-0001`, and the pad of `1` is `0001`. -/
theorem C6_id_generator_witness :
    next_ticket_id "20251012" ([] : List (String × Nat)) = "T20251012-0001" ∧
    (pad4 (0 + 1)).length = 4 :=
  ⟨by rw [(C6_id_generator.2.2 "20251012" [] rfl).1]; rfl, (C6_id_generator.2.1 0 (by omega)).1⟩


/-! ## Sessions and flow states

One FSM context per user: `state` is the current `StatesGroup` state,
`data` the accumulated field dictionary.  `state.set_state` keeps `data`;
only `state.clear()` empties it. -/

inductive FlowState where
  | taking_name | taking_email | taking_phone | taking_city | taking_address
  | taking_delivery | confirm
  | taking_serial | taking_issue | ask_remote | schedule_remote
  | tl_wait | asc_redirect | asc_control | repair | handover | feedback
deriving DecidableEq

structure Session where
  state : Option FlowState
  data : List (String × String)
deriving DecidableEq

/-! ## The purchase flow -/

def PRODUCT_name : String := "OSIO Focus line 14"

def PRODUCT_price : Int := 14999

/-- `cb_buy` (`menu_buy` callback): only `set_state`; leftover `data` from
an earlier flow is kept. -/
def cb_buy (s : Session) : Session := { s with state := some .taking_name }

def buy_name (s : Session) (text : String) : Session :=
  { state := some .taking_email, data := aset s.data "name" (strip text) }

/-- `buy_email`: on a failed pattern match, answer a retry prompt and
return without touching the session (`true` = re-prompted). -/
def buy_email (s : Session) (text : String) : Session × Bool :=
  let email := strip text
  if email_ok email = false then (s, true)
  else ({ state := some .taking_phone, data := aset s.data "email" email }, false)

def buy_phone (s : Session) (text : String) : Session :=
  { state := some .taking_city, data := aset s.data "phone" (strip text) }

def buy_city (s : Session) (text : String) : Session :=
  { state := some .taking_address, data := aset s.data "city" (strip text) }

def buy_address (s : Session) (text : String) : Session :=
  { state := some .taking_delivery, data := aset s.data "address" (strip text) }

def delivery_options : List (String × String) :=
  [("del_standard", "Стандартная (3–5 дней)"),
   ("del_express", "Экспресс (1–2 дня)"),
   ("del_pickup", "Самовывоз партнёр")]

/-- `options.get(cb.data, "Стандартная")`. -/
def delivery_label (cbData : String) : String :=
  match alookup delivery_options cbData with
  | some lbl => lbl
  | none => "Стандартная"

/-- `{"created_at": ..., "product": ..., "price": ..., **data}`: dict
literal merge, later keys updating earlier ones in place. -/
def dict_merge (base : List (String × Val)) (extra : List (String × Val)) :
    List (String × Val) :=
  extra.foldl (fun acc kv => aset acc kv.1 kv.2) base

/-- `buy_delivery` handler body: store the delivery label, allocate the
order id, persist the record, clear the session.  `date`/`ts` stand for
the two `utcnow()` readings. -/
def buy_delivery (s : Session) (cbData : String) (date ts : String)
    (odb : List (String × Val)) : Session × List (String × Val) × String :=
  let data2 := aset s.data "delivery" (delivery_label cbData)
  let order_id := next_order_id date odb
  let record : List (String × Val) :=
    dict_merge
      [("created_at", Val.str ts), ("product", Val.str PRODUCT_name),
       ("price", Val.int PRODUCT_price)]
      (data2.map (fun kv => (kv.1, Val.str kv.2)))
  (⟨none, []⟩, aset odb order_id (Val.obj record), order_id)

/-- Router gate for `buy_delivery`: it fires only on callbacks in state
`taking_delivery` whose data starts with `del_`.  On any other callback
this handler does not run: the orders collection is untouched and no order
id is issued (no other registered handler writes orders; the global menu
callbacks may still move the session elsewhere). -/
def dispatch_taking_delivery (s : Session) (cbData : String) (date ts : String)
    (odb : List (String × Val)) : Session × List (String × Val) × Option String :=
  if s.state = some FlowState.taking_delivery ∧ strStarts cbData "del_" = true then
    let r := buy_delivery s cbData date ts odb
    (r.1, r.2.1, some r.2.2)
  else (s, odb, none)

/-- The six-step purchase conversation on given user inputs, ending at the
delivery callback. -/
def run_buy_flow (s0 : Session) (nameIn emailIn phoneIn cityIn addrIn cbData date ts : String)
    (odb : List (String × Val)) : Session × List (String × Val) × Option String :=
  let s1 := buy_name (cb_buy s0) nameIn
  let s2 := (buy_email s1 emailIn).1
  let s3 := buy_phone s2 phoneIn
  let s4 := buy_city s3 cityIn
  let s5 := buy_address s4 addrIn
  dispatch_taking_delivery s5 cbData date ts odb

/-- C4: `taking_email` rejects an input failing the
`local@domain.tld`-shaped pattern — same session, nothing stored, a
re-prompt is sent — and accepts a matching input, storing the trimmed
e-mail and advancing to `taking_phone`; `a@b.co` is accepted and
`not-an-email` is rejected. -/
theorem C4_email_validation :
    (∀ (s : Session) (text : String), email_ok (strip text) = false →
        buy_email s text = (s, true)) ∧
    (∀ (s : Session) (text : String), email_ok (strip text) = true →
        buy_email s text
          = ({ state := some FlowState.taking_phone,
               data := aset s.data "email" (strip text) }, false)) ∧
    email_ok (strip "a@b.co") = true ∧ email_ok (strip "not-an-email") = false := by
  refine ⟨?_, ?_, by decide, by decide⟩
  · intro s text h
    rw [buy_email]
    simp [h]
  · intro s text h
    rw [buy_email]
    simp [h]

/-- Witness for C4 at concrete inputs: a session in `taking_email` with a
stored name is unchanged by `not-an-email` and advances on `a@b.co`. -/
theorem C4_email_validation_witness :
    buy_email ⟨some FlowState.taking_email, [("name", "Neo")]⟩ "not-an-email"
      = (⟨some FlowState.taking_email, [("name", "Neo")]⟩, true) ∧
    buy_email ⟨some FlowState.taking_email, [("name", "Neo")]⟩ "a@b.co"
      = (⟨some FlowState.taking_phone, [("name", "Neo"), ("email", "a@b.co")]⟩, false) :=
  ⟨C4_email_validation.1 _ "not-an-email" (by decide),
   by rw [C4_email_validation.2.1 _ "a@b.co" (by decide)]; rfl⟩


/-- A `taking_delivery` session holding the first five collected fields. -/
def c5_session : Session :=
  ⟨some FlowState.taking_delivery,
   [("name", "Neo"), ("email", "a@b.co"), ("phone", "+27"), ("city", "CT"),
    ("address", "1 Main Rd")]⟩

/-- Counterexample to C5 as stated: the callback `del_bogus` is none of
the three fixed delivery options, yet the handler fires (the router filter
only checks the `del_` prefix), completes the flow and persists an order —
with the delivery field silently defaulted to `Стандартная`. -/
theorem C5_counterexample :
    ("del_bogus" ∈ ["del_standard", "del_express", "del_pickup"] → False) ∧
    (dispatch_taking_delivery c5_session "del_bogus" "20251012" "TS" []).2.2
      = some "O20251012-0001" ∧
    (alookup (dispatch_taking_delivery c5_session "del_bogus" "20251012" "TS" []).2.1
      "O20251012-0001").isSome = true ∧
    delivery_label "del_bogus" = "Стандартная" := by
  refine ⟨by decide, ?_, ?_, by decide⟩ <;> rfl

/-- C5 amended: in `taking_delivery`, a callback whose data starts with
`del_` completes the flow and persists an order whose delivery field is
the label of the chosen option (the three known options map to their
labels; any other `del_`-prefixed data defaults to `Стандартная`); every
other input does not run the handler: the orders collection is unchanged
and no order is issued. -/
theorem C5_delivery_guard :
    (∀ (s : Session) (cbData date ts : String) (odb : List (String × Val)),
        ¬(s.state = some FlowState.taking_delivery ∧ strStarts cbData "del_" = true) →
        dispatch_taking_delivery s cbData date ts odb = (s, odb, none)) ∧
    (∀ (s : Session) (cbData date ts : String) (odb : List (String × Val)),
        s.state = some FlowState.taking_delivery → strStarts cbData "del_" = true →
        dispatch_taking_delivery s cbData date ts odb
          = ((⟨none, []⟩ : Session),
             aset odb (next_order_id date odb)
               (Val.obj (dict_merge
                 [("created_at", Val.str ts), ("product", Val.str PRODUCT_name),
                  ("price", Val.int PRODUCT_price)]
                 ((aset s.data "delivery" (delivery_label cbData)).map
                   (fun kv => (kv.1, Val.str kv.2))))),
             some (next_order_id date odb))) ∧
    delivery_label "del_standard" = "Стандартная (3–5 дней)" ∧
    delivery_label "del_express" = "Экспресс (1–2 дня)" ∧
    delivery_label "del_pickup" = "Самовывоз партнёр" ∧
    (∀ cbData, alookup delivery_options cbData = none →
        delivery_label cbData = "Стандартная") := by
  refine ⟨?_, ?_, by decide, by decide, by decide, ?_⟩
  · intro s cbData date ts odb h
    rw [dispatch_taking_delivery, if_neg h]
  · intro s cbData date ts odb h1 h2
    rw [dispatch_taking_delivery, if_pos ⟨h1, h2⟩]
    rfl
  · intro cbData h
    rw [delivery_label, h]

/-- Witness for C5 at concrete inputs: a message-like callback `menu_home`
leaves the store untouched; `del_express` completes and persists. -/
theorem C5_delivery_guard_witness :
    dispatch_taking_delivery c5_session "menu_home" "20251012" "TS" []
      = (c5_session, [], none) ∧
    (dispatch_taking_delivery c5_session "del_express" "20251012" "TS" []).2.2
      = some (next_order_id "20251012" ([] : List (String × Val))) ∧
    delivery_label "nope" = "Стандартная" :=
  ⟨C5_delivery_guard.1 c5_session "menu_home" "20251012" "TS" [] (by decide),
   by rw [C5_delivery_guard.2.1 c5_session "del_express" "20251012" "TS" []
       (by decide) (by decide)],
   C5_delivery_guard.2.2.2.2.2 "nope" (by decide)⟩

/-- The record persisted by the concrete leftover-data run used against
C8: the session still holds `serial` from an abandoned warranty flow. -/
def c8_leftover_run : Session × List (String × Val) × Option String :=
  run_buy_flow ⟨none, [("serial", "SN1")]⟩ "Neo" "a@b.co" "+27" "CT" "1 Main Rd"
    "del_standard" "20251012" "TS" []

/-- Counterexample to C8 as stated: a completed order flow whose session
carried a leftover `serial` field (stored by the warranty flow's
`w_serial` and never cleared — `cb_buy` only calls `set_state`) persists
an order record that contains `serial` in addition to the nine specified
fields.  The flow is genuinely completed: the e-mail passed validation and
a fixed delivery option was chosen. -/
theorem C8_counterexample :
    email_ok (strip "a@b.co") = true ∧
    "del_standard" ∈ ["del_standard", "del_express", "del_pickup"] ∧
    (alookup c8_leftover_run.2.1 "O20251012-0001").map
        (fun v => match v with | Val.obj kvs => kvs.map Prod.fst | _ => [])
      = some ["created_at", "product", "price", "serial", "name", "email", "phone",
              "city", "address", "delivery"] ∧
    c8_leftover_run.1 = (⟨none, []⟩ : Session) := by
  refine ⟨by decide, by decide, ?_, ?_⟩ <;> rfl

/-- C8 amended: a completed order flow that starts with an empty session
dictionary persists exactly the six collected fields plus the identifier
(as key), timestamp, product and price — nothing else — and the session is
cleared; in general the record is the three computed fields followed by
every field present in the session dictionary. -/
theorem C8_order_record :
    ∀ (s0 : Session) (nameIn emailIn phoneIn cityIn addrIn cbData date ts : String)
      (odb : List (String × Val)),
      s0.data = [] →
      email_ok (strip emailIn) = true →
      strStarts cbData "del_" = true →
      run_buy_flow s0 nameIn emailIn phoneIn cityIn addrIn cbData date ts odb
        = ((⟨none, []⟩ : Session),
           aset odb (next_order_id date odb)
             (Val.obj
               [("created_at", Val.str ts), ("product", Val.str PRODUCT_name),
                ("price", Val.int PRODUCT_price),
                ("name", Val.str (strip nameIn)), ("email", Val.str (strip emailIn)),
                ("phone", Val.str (strip phoneIn)), ("city", Val.str (strip cityIn)),
                ("address", Val.str (strip addrIn)),
                ("delivery", Val.str (delivery_label cbData))]),
           some (next_order_id date odb)) := by
  intro s0 nameIn emailIn phoneIn cityIn addrIn cbData date ts odb hd he hdel
  obtain ⟨st0, d0⟩ := s0
  simp only at hd
  subst hd
  rw [run_buy_flow]
  rw [cb_buy, buy_name]
  rw [show buy_email
        ⟨some FlowState.taking_email, aset [] "name" (strip nameIn)⟩ emailIn
      = (⟨some FlowState.taking_phone,
          aset (aset [] "name" (strip nameIn)) "email" (strip emailIn)⟩, false) from by
    rw [buy_email]; simp [he]]
  rw [buy_phone, buy_city, buy_address]
  rw [dispatch_taking_delivery, if_pos ⟨rfl, hdel⟩]
  rw [buy_delivery]
  simp [aset, dict_merge]

/-- Witness for C8 at concrete inputs: a clean session yields exactly the
nine-field record. -/
theorem C8_order_record_witness :
    run_buy_flow ⟨none, []⟩ "Neo" "a@b.co" "+27" "CT" "1 Main Rd" "del_pickup"
        "20251012" "TS" []
      = ((⟨none, []⟩ : Session),
         aset [] (next_order_id "20251012" ([] : List (String × Val)))
           (Val.obj
             [("created_at", Val.str "TS"), ("product", Val.str PRODUCT_name),
              ("price", Val.int PRODUCT_price),
              ("name", Val.str (strip "Neo")), ("email", Val.str (strip "a@b.co")),
              ("phone", Val.str (strip "+27")), ("city", Val.str (strip "CT")),
              ("address", Val.str (strip "1 Main Rd")),
              ("delivery", Val.str (delivery_label "del_pickup"))]),
         some (next_order_id "20251012" ([] : List (String × Val)))) :=
  C8_order_record ⟨none, []⟩ "Neo" "a@b.co" "+27" "CT" "1 Main Rd" "del_pickup"
    "20251012" "TS" [] rfl (by decide) (by decide)


/-! ## The warranty flow

Ticket records as `w_remote` builds them.  `serial` and `issue` are
`data.get(...)` results, hence optional (absent session keys become JSON
`null`). -/

structure HEvent where
  ts : String
  event : String
deriving DecidableEq

structure Ticket where
  created_at : String
  serial : Option String
  issue : Option String
  remote_ok : Bool
  status : String
  history : List HEvent
deriving DecidableEq

def cb_warranty (s : Session) : Session := { s with state := some .taking_serial }

def w_serial (s : Session) (text : String) : Session :=
  { state := some .taking_issue, data := aset s.data "serial" (normalizeSerial text) }

def w_issue (s : Session) (text : String) : Session :=
  { state := some .ask_remote, data := aset s.data "issue" (strip text) }

/-- The ticket `w_remote` stores: `cbData` is the consent callback
(filtered to `yes` / `no`), `ts1`–`ts3` the three `utcnow()` readings. -/
def mkTicket (serial issue : Option String) (cbData ts1 ts2 ts3 : String) : Ticket :=
  { created_at := ts1
    serial := serial
    issue := issue
    remote_ok := decide (cbData = "yes")
    status := if cbData = "yes" then "remote_scheduled" else "tl_wait"
    history := [⟨ts2, "created"⟩, ⟨ts3, "remote_consent:" ++ cbData⟩] }

/-- `w_remote`: create and persist the ticket, then move to
`schedule_remote` on consent and to `tl_wait` otherwise. -/
def w_remote (s : Session) (cbData date ts1 ts2 ts3 : String)
    (db : List (String × Ticket)) :
    Session × List (String × Ticket) × String :=
  let ticket_id := next_ticket_id date db
  let t := mkTicket (alookup s.data "serial") (alookup s.data "issue") cbData ts1 ts2 ts3
  ({ s with state := some (if cbData = "yes" then FlowState.schedule_remote
                           else FlowState.tl_wait) },
   aset db ticket_id t, ticket_id)

/-! Python string comparison (`sorted` key order) on char lists. -/

def listLt : List Char → List Char → Bool
  | [], [] => false
  | [], _ :: _ => true
  | _ :: _, [] => false
  | a :: as, b :: bs =>
      if a.toNat < b.toNat then true
      else if b.toNat < a.toNat then false
      else listLt as bs

theorem listLt_irrefl : ∀ as, listLt as as = false := by
  intro as
  induction as with
  | nil => rfl
  | cons a as ih => simp [listLt, ih]

theorem listLt_trans :
    ∀ as bs cs, listLt as bs = true → listLt bs cs = true → listLt as cs = true := by
  intro as
  induction as with
  | nil =>
      intro bs cs h1 h2
      cases bs with
      | nil => exact absurd h1 (by simp [listLt])
      | cons b bs =>
          cases cs with
          | nil => exact absurd h2 (by simp [listLt])
          | cons c cs => simp [listLt]
  | cons a as ih =>
      intro bs cs h1 h2
      cases bs with
      | nil => exact absurd h1 (by simp [listLt])
      | cons b bs =>
          cases cs with
          | nil => exact absurd h2 (by simp [listLt])
          | cons c cs =>
              rw [listLt] at h1 h2 ⊢
              by_cases hab : a.toNat < b.toNat
              · by_cases hbc : b.toNat < c.toNat
                · rw [if_pos (by omega)]
                · rw [if_neg hbc] at h2
                  by_cases hcb : c.toNat < b.toNat
                  · rw [if_pos hcb] at h2; exact absurd h2 (by simp)
                  · rw [if_pos (by omega)]
              · rw [if_neg hab] at h1
                by_cases hba : b.toNat < a.toNat
                · rw [if_pos hba] at h1; exact absurd h1 (by simp)
                · rw [if_neg hba] at h1
                  by_cases hbc : b.toNat < c.toNat
                  · rw [if_pos (by omega)]
                  · rw [if_neg hbc] at h2
                    by_cases hcb : c.toNat < b.toNat
                    · rw [if_pos hcb] at h2; exact absurd h2 (by simp)
                    · rw [if_neg hcb] at h2
                      rw [if_neg (by omega), if_neg (by omega)]
                      exact ih bs cs h1 h2

theorem listLt_conn :
    ∀ as bs, listLt as bs = false → listLt bs as = false → as = bs := by
  intro as
  induction as with
  | nil =>
      intro bs h1 _
      cases bs with
      | nil => rfl
      | cons b bs => exact absurd h1 (by simp [listLt])
  | cons a as ih =>
      intro bs h1 h2
      cases bs with
      | nil => exact absurd h2 (by simp [listLt])
      | cons b bs =>
          rw [listLt] at h1 h2
          by_cases hab : a.toNat < b.toNat
          · rw [if_pos hab] at h1; exact absurd h1 (by simp)
          · by_cases hba : b.toNat < a.toNat
            · rw [if_pos hba] at h2; exact absurd h2 (by simp)
            · rw [if_neg hab, if_neg hba] at h1
              rw [if_neg hba, if_neg hab] at h2
              have hchar : a = b := by
                have h3 : a.toNat = b.toNat := by omega
                exact Char.ext (UInt32.ext h3)
              rw [hchar, ih bs h1 h2]

/-- The `sorted(..., key=lambda x: x[1]["created_at"], reverse=True)`
order: `a` may precede `b` iff `a`'s key is not smaller — a stable sort
under this relation puts larger timestamps first and keeps the original
order of ties, exactly like CPython's stable `sorted` with
`reverse=True`. -/
def tdesc (a b : String × Ticket) : Prop :=
  listLt a.2.created_at.data b.2.created_at.data = false

instance : DecidableRel tdesc := fun _ _ => instDecidableEqBool _ _

instance : IsTotal (String × Ticket) tdesc := by
  constructor
  intro a b
  by_cases h : listLt a.2.created_at.data b.2.created_at.data = true
  · right
    rw [tdesc]
    by_contra h2
    rw [Bool.not_eq_false] at h2
    have := listLt_trans _ _ _ h h2
    rw [listLt_irrefl] at this
    exact absurd this (by simp)
  · left
    rw [tdesc]
    exact Bool.not_eq_true _ |>.mp h

instance : IsTrans (String × Ticket) tdesc := by
  constructor
  intro a b c h1 h2
  rw [tdesc] at h1 h2 ⊢
  by_contra hac
  rw [Bool.not_eq_false] at hac
  by_cases hba : listLt b.2.created_at.data a.2.created_at.data = true
  · have := listLt_trans _ _ _ hba hac
    rw [this] at h2
    exact absurd h2 (by simp)
  · have heq := listLt_conn _ _ h1 (Bool.not_eq_true _ |>.mp hba)
    rw [heq] at hac
    rw [hac] at h2
    exact absurd h2 (by simp)

def sort_tickets_desc (db : List (String × Ticket)) : List (String × Ticket) :=
  List.insertionSort tdesc db

/-- `w_schedule_remote`'s scan: the first ticket, in descending
creation-time order, matching the session's serial and issue. -/
def find_ticket (db : List (String × Ticket)) (serial issue : String) : Option String :=
  ((sort_tickets_desc db).find?
    (fun kv => decide (kv.2.serial = some serial ∧ kv.2.issue = some issue))).map Prod.fst

def apply_schedule (t : Ticket) (sched ts : String) : Ticket :=
  { t with history := t.history ++ [⟨ts, "remote_scheduled:" ++ sched⟩],
           status := "remote_scheduled" }

/-- `w_schedule_remote`: store the schedule text, look the ticket up by
serial+issue, update and save it when found (third component: was `_save`
called), move to `tl_wait`, and address the stage keyboard to the found id
or to `unknown`.  `none` models the `KeyError` on an absent session key
(unreachable in the conversation flow). -/
def w_schedule_remote (s : Session) (text ts : String) (db : List (String × Ticket)) :
    Option (Session × List (String × Ticket) × Bool × String) :=
  let sched := strip text
  let d2 := aset s.data "schedule" sched
  (alookup d2 "serial").bind (fun serial =>
    (alookup d2 "issue").bind (fun issue =>
      let s3 : Session := { state := some FlowState.tl_wait, data := d2 }
      match find_ticket db serial issue with
      | none => some (s3, db, false, "unknown")
      | some tid =>
          (alookup db tid).map (fun t =>
            (s3, aset db tid (apply_schedule t sched ts), true, tid))))

/-! The six stage-advance callbacks. -/

def progress_table : List (String × String × String) :=
  [("tl_wait", ("Ожидание ответа ТЛ (3–5 раб. дней).", "tl_wait")),
   ("asc_redirect", ("Направлено в АСЦ. В особых случаях — забор курьером (2–3 дня).",
     "asc_redirect")),
   ("asc_control", ("Контроль АСЦ и логистики ЗЧ (3–7 дней).", "asc_control")),
   ("repair", ("Ремонт (7–30 дней).", "repair")),
   ("handover", ("Передача устройства клиенту (3–5 дней).", "handover")),
   ("feedback", ("Получение ОС. Спасибо за обратную связь!", "closed"))]

def apply_action (t : Ticket) (action status ts : String) : Ticket :=
  { t with history := t.history ++ [⟨ts, action⟩], status := status }

/-- `w_progress` on an already split callback: unknown ticket → alert
(`true`), nothing saved; otherwise append the event, overwrite the status
from the table and save.  `none` models the `KeyError` a non-table action
prefix would raise after the ticket check. -/
def w_progress (action ticket_id ts : String) (db : List (String × Ticket)) :
    Option (List (String × Ticket) × Bool) :=
  match alookup db ticket_id with
  | none => some (db, true)
  | some t =>
      (alookup progress_table action).map
        (fun ms => (aset db ticket_id (apply_action t action ms.2 ts), false))

/-- `action, _, ticket_id = cb.data.partition(":")`. -/
def w_progress_cb (cbData ts : String) (db : List (String × Ticket)) :
    Option (List (String × Ticket) × Bool) :=
  let action := String.mk (cbData.data.takeWhile (fun c => decide (c ≠ ':')))
  let ticket_id := String.mk ((cbData.data.dropWhile (fun c => decide (c ≠ ':'))).drop 1)
  w_progress action ticket_id ts db


theorem str_data_append : ∀ (a b : String), (a ++ b).data = a.data ++ b.data
  | ⟨_⟩, ⟨_⟩ => rfl

/-- `cb.data.partition(":")` on well-formed stage callbacks: splitting
`action ++ ":" ++ ticket_id` at the first colon recovers the pieces when
the action name itself has no colon. -/
theorem w_progress_cb_split (action ticket_id ts : String) (db : List (String × Ticket))
    (hnc : ∀ c ∈ action.data, (c = ':') → False) :
    w_progress_cb (action ++ ":" ++ ticket_id) ts db = w_progress action ticket_id ts db := by
  rw [w_progress_cb]
  have hdata : (action ++ ":" ++ ticket_id).data = action.data ++ ':' :: ticket_id.data := by
    rw [str_data_append, str_data_append]
    simp
  rw [hdata]
  have hsplit := takeWhile_all_append (fun c => decide (c ≠ ':')) action.data
    (':' :: ticket_id.data)
    (fun c hc => by simpa using hnc c hc) (by simp)
  rw [hsplit.1, hsplit.2]
  simp only [List.drop_succ_cons, List.drop_zero, mk_data]

/-- C1: each of the six stage actions, on an existing ticket id, appends
exactly one history event and overwrites the status with the mapped value
(`feedback` maps to `closed`), whatever the prior status; on a missing id
it reports not-found (`true` alert) and returns the store unmodified.  The
callback data `action:ticket_id` splits into exactly these arguments. -/
theorem C1_stage_actions :
    ∀ (action status : String),
      (action, status) ∈
        [("tl_wait", "tl_wait"), ("asc_redirect", "asc_redirect"),
         ("asc_control", "asc_control"), ("repair", "repair"),
         ("handover", "handover"), ("feedback", "closed")] →
      ∀ (ticket_id ts : String) (db : List (String × Ticket)),
        (alookup db ticket_id = none →
          w_progress action ticket_id ts db = some (db, true)) ∧
        (∀ t, alookup db ticket_id = some t →
          w_progress action ticket_id ts db
            = some (aset db ticket_id (apply_action t action status ts), false) ∧
          (apply_action t action status ts).history = t.history ++ [⟨ts, action⟩] ∧
          (apply_action t action status ts).status = status ∧
          alookup (aset db ticket_id (apply_action t action status ts)) ticket_id
            = some (apply_action t action status ts) ∧
          (∀ k, k ≠ ticket_id →
            alookup (aset db ticket_id (apply_action t action status ts)) k
              = alookup db k)) ∧
        w_progress_cb (action ++ ":" ++ ticket_id) ts db
          = w_progress action ticket_id ts db := by
  intro action status hmem ticket_id ts db
  simp only [List.mem_cons, Prod.mk.injEq, List.not_mem_nil, or_false] at hmem
  rcases hmem with ⟨rfl, rfl⟩ | ⟨rfl, rfl⟩ | ⟨rfl, rfl⟩ | ⟨rfl, rfl⟩ | ⟨rfl, rfl⟩ |
    ⟨rfl, rfl⟩ <;>
    exact ⟨fun h => by simp only [w_progress, h],
      fun t ht => by
        simp only [w_progress, ht]
        exact ⟨rfl, rfl, rfl, alookup_aset_self db ticket_id _,
          fun k hk => alookup_aset_other db ticket_id k _ hk⟩,
      w_progress_cb_split _ ticket_id ts db (by decide)⟩

/-- A ticket already in status `closed`, used to witness C1. -/
def c1_ticket : Ticket :=
  ⟨"2025-01-01T00:00:00", some "SN", some "IS", false, "closed",
   [⟨"2025-01-01T00:00:00", "created"⟩]⟩

/-- Witness for C1 at concrete inputs: `feedback` on a `closed` ticket
still appends an event and re-sets `closed`; a missing ticket id leaves
the store unchanged with the not-found alert. -/
theorem C1_stage_actions_witness :
    w_progress "feedback" "T1" "ts" [("T1", c1_ticket)]
      = some ([("T1", apply_action c1_ticket "feedback" "closed" "ts")], false) ∧
    w_progress "feedback" "missing" "ts" [("T1", c1_ticket)]
      = some ([("T1", c1_ticket)], true) :=
  ⟨((C1_stage_actions "feedback" "closed" (by decide) "T1" "ts"
      [("T1", c1_ticket)]).2.1 c1_ticket rfl).1,
   (C1_stage_actions "feedback" "closed" (by decide) "missing" "ts"
      [("T1", c1_ticket)]).1 rfl⟩

/-- C3: answering the remote-consent question creates the ticket at the
generated id with `remote_ok` the boolean of the answer, status
`remote_scheduled` on yes and `tl_wait` on no, and exactly the two history
events `created` then `remote_consent:<answer>`; the rest of the store is
untouched. -/
theorem C3_ticket_creation :
    ∀ (s : Session) (cbData date ts1 ts2 ts3 : String) (db : List (String × Ticket)),
      cbData = "yes" ∨ cbData = "no" →
      (w_remote s cbData date ts1 ts2 ts3 db).2.2 = next_ticket_id date db ∧
      alookup (w_remote s cbData date ts1 ts2 ts3 db).2.1 (next_ticket_id date db)
        = some (mkTicket (alookup s.data "serial") (alookup s.data "issue")
            cbData ts1 ts2 ts3) ∧
      (mkTicket (alookup s.data "serial") (alookup s.data "issue")
          cbData ts1 ts2 ts3).remote_ok = decide (cbData = "yes") ∧
      (cbData = "yes" →
        (mkTicket (alookup s.data "serial") (alookup s.data "issue")
            cbData ts1 ts2 ts3).status = "remote_scheduled" ∧
        (w_remote s cbData date ts1 ts2 ts3 db).1.state
          = some FlowState.schedule_remote) ∧
      (cbData = "no" →
        (mkTicket (alookup s.data "serial") (alookup s.data "issue")
            cbData ts1 ts2 ts3).status = "tl_wait" ∧
        (w_remote s cbData date ts1 ts2 ts3 db).1.state = some FlowState.tl_wait) ∧
      (mkTicket (alookup s.data "serial") (alookup s.data "issue")
          cbData ts1 ts2 ts3).history
        = [⟨ts2, "created"⟩, ⟨ts3, "remote_consent:" ++ cbData⟩] ∧
      (∀ k, k ≠ next_ticket_id date db →
        alookup (w_remote s cbData date ts1 ts2 ts3 db).2.1 k = alookup db k) := by
  intro s cbData date ts1 ts2 ts3 db hc
  refine ⟨rfl, ?_, rfl, ?_, ?_, rfl, ?_⟩
  · exact alookup_aset_self db (next_ticket_id date db) _
  · intro h
    subst h
    exact ⟨rfl, rfl⟩
  · intro h
    subst h
    exact ⟨rfl, rfl⟩
  · intro k hk
    exact alookup_aset_other db (next_ticket_id date db) k _ hk

/-- Witness for C3 at concrete inputs: consent `yes` after a normal
serial/issue conversation. -/
theorem C3_ticket_creation_witness :
    (w_remote ⟨some FlowState.ask_remote, [("serial", "SN1"), ("issue", "flicker")]⟩
        "yes" "20251012" "t1" "t2" "t3" []).2.2 = next_ticket_id "20251012"
        ([] : List (String × Ticket)) ∧
    (mkTicket (alookup [("serial", "SN1"), ("issue", "flicker")] "serial")
        (alookup [("serial", "SN1"), ("issue", "flicker")] "issue")
        "yes" "t1" "t2" "t3").history
      = [⟨"t2", "created"⟩, ⟨"t3", "remote_consent:" ++ "yes"⟩] :=
  ⟨(C3_ticket_creation ⟨some FlowState.ask_remote, [("serial", "SN1"), ("issue", "flicker")]⟩
      "yes" "20251012" "t1" "t2" "t3" [] (Or.inl rfl)).1,
   (C3_ticket_creation ⟨some FlowState.ask_remote, [("serial", "SN1"), ("issue", "flicker")]⟩
      "yes" "20251012" "t1" "t2" "t3" [] (Or.inl rfl)).2.2.2.2.2.1⟩

/-- C10: a `schedule_remote` message that matches no ticket leaves the
ticket store completely unchanged and performs no save, yet the session
still advances to `tl_wait` and the stage keyboard is addressed to the
placeholder id `unknown`. -/
theorem C10_schedule_remote_not_found :
    ∀ (s : Session) (text ts : String) (db : List (String × Ticket))
      (serial issue : String),
      alookup s.data "serial" = some serial →
      alookup s.data "issue" = some issue →
      find_ticket db serial issue = none →
      w_schedule_remote s text ts db
        = some ({ state := some FlowState.tl_wait,
                  data := aset s.data "schedule" (strip text) }, db, false, "unknown") := by
  intro s text ts db serial issue hse hiss hf
  rw [w_schedule_remote]
  have h1 : alookup (aset s.data "schedule" (strip text)) "serial" = some serial := by
    rw [alookup_aset_other s.data "schedule" "serial" _ (by decide)]
    exact hse
  have h2 : alookup (aset s.data "schedule" (strip text)) "issue" = some issue := by
    rw [alookup_aset_other s.data "schedule" "issue" _ (by decide)]
    exact hiss
  rw [h1, h2]
  simp only [Option.bind]
  rw [hf]

/-- Witness for C10 at concrete inputs: an empty ticket store matches
nothing. -/
theorem C10_schedule_remote_not_found_witness :
    w_schedule_remote
        ⟨some FlowState.schedule_remote, [("serial", "SN1"), ("issue", "flicker")]⟩
        " 10:30 " "ts" []
      = some (⟨some FlowState.tl_wait,
              [("serial", "SN1"), ("issue", "flicker"), ("schedule", strip " 10:30 ")]⟩,
              [], false, "unknown") := by
  rw [C10_schedule_remote_not_found
      ⟨some FlowState.schedule_remote, [("serial", "SN1"), ("issue", "flicker")]⟩
      " 10:30 " "ts" [] "SN1" "flicker" rfl rfl rfl]
  rfl


theorem alookup_mem_nodup {α : Type} :
    ∀ (d : List (String × α)) (k : String) (v : α),
      (d.map Prod.fst).Nodup → (k, v) ∈ d → alookup d k = some v := by
  intro d
  induction d with
  | nil => intro k v _ hm; exact absurd hm (List.not_mem_nil _)
  | cons p rest ih =>
      obtain ⟨k2, w⟩ := p
      intro k v hnd hm
      rw [List.map_cons, List.nodup_cons] at hnd
      rcases List.mem_cons.mp hm with heq | hm2
      · obtain ⟨rfl, rfl⟩ := Prod.mk.injEq .. |>.mp heq.symm |>.imp Eq.symm Eq.symm
        rw [alookup, if_pos rfl]
      · have hk : k2 ≠ k := by
          intro h
          subst h
          exact hnd.1 (List.mem_map.mpr ⟨(k2, v), hm2, rfl⟩)
        rw [alookup, if_neg hk]
        exact ih k v hnd.2 hm2

theorem find?_sorted_max (p : String × Ticket → Bool) :
    ∀ (l : List (String × Ticket)), List.Sorted tdesc l →
      ∀ a, l.find? p = some a → ∀ b ∈ l, p b = true →
        listLt a.2.created_at.data b.2.created_at.data = false := by
  intro l
  induction l with
  | nil => intro _ a ha; simp [List.find?] at ha
  | cons h t ih =>
      intro hs a ha b hb hpb
      rw [List.sorted_cons] at hs
      rw [List.find?] at ha
      cases hph : p h with
      | true =>
          rw [hph] at ha
          obtain rfl : h = a := by simpa using ha
          rcases List.mem_cons.mp hb with rfl | hbt
          · exact listLt_irrefl _
          · exact hs.1 b hbt
      | false =>
          rw [hph] at ha
          rcases List.mem_cons.mp hb with rfl | hbt
          · rw [hph] at hpb; exact absurd hpb (by simp)
          · exact ih hs.2 a ha b hbt hpb

/-- C9: a `schedule_remote` message locates, among all tickets, the most
recently created one (by creation timestamp, scanning in descending
order) whose serial and issue equal the session's stored values; when one
is found, exactly one `remote_scheduled:<text>` history event is appended
to it, its status is set to `remote_scheduled`, the store is saved with
only that ticket changed, and the flow moves to `tl_wait`. -/
theorem C9_schedule_remote_found :
    ∀ (s : Session) (text ts : String) (db : List (String × Ticket))
      (serial issue tid : String),
      (db.map Prod.fst).Nodup →
      alookup s.data "serial" = some serial →
      alookup s.data "issue" = some issue →
      find_ticket db serial issue = some tid →
      ∃ t, alookup db tid = some t ∧
        t.serial = some serial ∧ t.issue = some issue ∧
        (∀ k v, (k, v) ∈ db → v.serial = some serial → v.issue = some issue →
          listLt t.created_at.data v.created_at.data = false) ∧
        w_schedule_remote s text ts db
          = some ({ state := some FlowState.tl_wait,
                    data := aset s.data "schedule" (strip text) },
                  aset db tid (apply_schedule t (strip text) ts), true, tid) ∧
        (apply_schedule t (strip text) ts).history
          = t.history ++ [⟨ts, "remote_scheduled:" ++ strip text⟩] ∧
        (apply_schedule t (strip text) ts).status = "remote_scheduled" ∧
        (∀ k, k ≠ tid →
          alookup (aset db tid (apply_schedule t (strip text) ts)) k = alookup db k) := by
  intro s text ts db serial issue tid hnd hse hiss hf
  have hf2 := hf
  rw [find_ticket] at hf2
  obtain ⟨pr, hfind, hpr⟩ :
      ∃ pr, (sort_tickets_desc db).find?
          (fun kv => decide (kv.2.serial = some serial ∧ kv.2.issue = some issue))
        = some pr ∧ pr.1 = tid := by
    cases hx : (sort_tickets_desc db).find?
        (fun kv => decide (kv.2.serial = some serial ∧ kv.2.issue = some issue)) with
    | none => rw [hx] at hf2; simp at hf2
    | some pr =>
        rw [hx] at hf2
        exact ⟨pr, rfl, by simpa using hf2⟩
  have hperm : List.Perm (sort_tickets_desc db) db := List.perm_insertionSort tdesc db
  have hmem_s : pr ∈ sort_tickets_desc db := List.mem_of_find?_eq_some hfind
  have hmem : pr ∈ db := hperm.subset hmem_s
  have hp : pr.2.serial = some serial ∧ pr.2.issue = some issue := by
    have := List.find?_some hfind
    exact of_decide_eq_true this
  have halook : alookup db tid = some pr.2 := by
    apply alookup_mem_nodup db tid pr.2 hnd
    rw [← hpr]
    exact hmem
  refine ⟨pr.2, halook, hp.1, hp.2, ?_, ?_, rfl, rfl,
    fun k hk => alookup_aset_other db tid k _ hk⟩
  · intro k v hkv hvs hvi
    have hbm : (k, v) ∈ sort_tickets_desc db := hperm.symm.subset hkv
    have := find?_sorted_max
      (fun kv => decide (kv.2.serial = some serial ∧ kv.2.issue = some issue))
      (sort_tickets_desc db) (List.sorted_insertionSort tdesc db) pr hfind
      (k, v) hbm (by simp [hvs, hvi])
    exact this
  · rw [w_schedule_remote]
    have h1 : alookup (aset s.data "schedule" (strip text)) "serial" = some serial := by
      rw [alookup_aset_other s.data "schedule" "serial" _ (by decide)]
      exact hse
    have h2 : alookup (aset s.data "schedule" (strip text)) "issue" = some issue := by
      rw [alookup_aset_other s.data "schedule" "issue" _ (by decide)]
      exact hiss
    rw [h1, h2]
    simp only [Option.bind]
    rw [hf]
    simp [halook]

/-- Two tickets with the same serial and issue but different creation
times, the second created later; used to witness C9. -/
def c9_t1 : Ticket :=
  ⟨"2025-01-01T00:00:00", some "SN1", some "flicker", true, "remote_scheduled",
   [⟨"a", "created"⟩, ⟨"a", "remote_consent:yes"⟩]⟩

def c9_t2 : Ticket :=
  ⟨"2025-02-02T00:00:00", some "SN1", some "flicker", true, "remote_scheduled",
   [⟨"b", "created"⟩, ⟨"b", "remote_consent:yes"⟩]⟩

/-- Witness for C9 at concrete inputs: with two matching tickets the later
one (`T2`) is selected and updated. -/
theorem C9_schedule_remote_found_witness :
    ∃ t, alookup [("T1", c9_t1), ("T2", c9_t2)] "T2" = some t ∧
      t.serial = some "SN1" ∧ t.issue = some "flicker" ∧
      (∀ k v, (k, v) ∈ [("T1", c9_t1), ("T2", c9_t2)] →
        v.serial = some "SN1" → v.issue = some "flicker" →
        listLt t.created_at.data v.created_at.data = false) ∧
      w_schedule_remote
          ⟨some FlowState.schedule_remote, [("serial", "SN1"), ("issue", "flicker")]⟩
          "10:30" "ts" [("T1", c9_t1), ("T2", c9_t2)]
        = some (⟨some FlowState.tl_wait,
                 aset [("serial", "SN1"), ("issue", "flicker")] "schedule" (strip "10:30")⟩,
                aset [("T1", c9_t1), ("T2", c9_t2)] "T2"
                  (apply_schedule t (strip "10:30") "ts"), true, "T2") ∧
      (apply_schedule t (strip "10:30") "ts").history
        = t.history ++ [⟨"ts", "remote_scheduled:" ++ strip "10:30"⟩] ∧
      (apply_schedule t (strip "10:30") "ts").status = "remote_scheduled" ∧
      (∀ k, k ≠ "T2" →
        alookup (aset [("T1", c9_t1), ("T2", c9_t2)] "T2"
          (apply_schedule t (strip "10:30") "ts")) k
          = alookup [("T1", c9_t1), ("T2", c9_t2)] k) :=
  C9_schedule_remote_found
    ⟨some FlowState.schedule_remote, [("serial", "SN1"), ("issue", "flicker")]⟩
    "10:30" "ts" [("T1", c9_t1), ("T2", c9_t2)] "SN1" "flicker" "T2"
    (by decide) rfl rfl (by decide)


/-! ## The per-ticket lifecycle (C2)

A ticket is mutated by three code paths: creation (`w_remote`), the
remote-schedule update (`w_schedule_remote`, via `apply_schedule`) and the
six stage actions (`w_progress`, via `apply_action` with a
`progress_table` entry).  `TStep` is exactly these per-ticket mutations;
`ReachableTicket` the states a stored ticket can pass through. -/

/-- The event name before the first `:` (events carry payloads after a
colon: `remote_consent:yes`, `remote_scheduled:<text>`). -/
def event_base (e : String) : String :=
  String.mk (e.data.takeWhile (fun c => decide (c ≠ ':')))

/-- The status a stage-transition event assigns: the six actions write
their table status (`feedback` writes `closed`), the remote-schedule event
writes `remote_scheduled`; `created` and `remote_consent` are
informational. -/
def stage_event_status (e : String) : Option String :=
  if e = "remote_scheduled" then some "remote_scheduled"
  else (alookup progress_table e).map (fun ms => ms.2)

def is_stage_event (e : String) : Bool := (stage_event_status (event_base e)).isSome

def last_stage_event (h : List HEvent) : Option String :=
  ((h.filter (fun ev => is_stage_event ev.event)).getLast?).map (fun ev => ev.event)

inductive TStep : Ticket → Ticket → Prop where
  | progress (t : Ticket) (action txt status ts : String)
      (h : alookup progress_table action = some (txt, status)) :
      TStep t (apply_action t action status ts)
  | schedule (t : Ticket) (sched ts : String) :
      TStep t (apply_schedule t sched ts)

inductive ReachableTicket : Ticket → Prop where
  | created (serial issue : Option String) (cbData ts1 ts2 ts3 : String)
      (h : cbData = "yes" ∨ cbData = "no") :
      ReachableTicket (mkTicket serial issue cbData ts1 ts2 ts3)
  | step {t t2 : Ticket} :
      ReachableTicket t → TStep t t2 → ReachableTicket t2

theorem event_base_append_colon (a b : String)
    (h : ∀ c ∈ a.data, (c = ':') → False) :
    event_base (a ++ ":" ++ b) = a := by
  rw [event_base]
  have hdata : (a ++ ":" ++ b).data = a.data ++ ':' :: b.data := by
    rw [str_data_append, str_data_append]
    simp
  rw [hdata]
  rw [(takeWhile_all_append (fun c => decide (c ≠ ':')) a.data (':' :: b.data)
    (fun c hc => by simpa using h c hc) (by simp)).1]

theorem progress_table_cases (action : String) (ms : String × String)
    (h : alookup progress_table action = some ms) :
    (action = "tl_wait" ∧ ms.2 = "tl_wait") ∨
    (action = "asc_redirect" ∧ ms.2 = "asc_redirect") ∨
    (action = "asc_control" ∧ ms.2 = "asc_control") ∨
    (action = "repair" ∧ ms.2 = "repair") ∨
    (action = "handover" ∧ ms.2 = "handover") ∨
    (action = "feedback" ∧ ms.2 = "closed") := by
  simp only [progress_table, alookup] at h
  split_ifs at h with h1 h2 h3 h4 h5 h6
  · exact Or.inl ⟨h1.symm, by obtain rfl := Option.some.inj h; rfl⟩
  · exact Or.inr (Or.inl ⟨h2.symm, by obtain rfl := Option.some.inj h; rfl⟩)
  · exact Or.inr (Or.inr (Or.inl ⟨h3.symm, by obtain rfl := Option.some.inj h; rfl⟩))
  · exact Or.inr (Or.inr (Or.inr (Or.inl
      ⟨h4.symm, by obtain rfl := Option.some.inj h; rfl⟩)))
  · exact Or.inr (Or.inr (Or.inr (Or.inr (Or.inl
      ⟨h5.symm, by obtain rfl := Option.some.inj h; rfl⟩))))
  · exact Or.inr (Or.inr (Or.inr (Or.inr (Or.inr
      ⟨h6.symm, by obtain rfl := Option.some.inj h; rfl⟩))))

theorem last_stage_event_append_stage (h : List HEvent) (ev : HEvent)
    (hst : is_stage_event ev.event = true) :
    last_stage_event (h ++ [ev]) = some ev.event := by
  rw [last_stage_event, List.filter_append]
  rw [show List.filter (fun e => is_stage_event e.event) [ev] = [ev] from by simp [hst]]
  rw [List.getLast?_concat]
  rfl

theorem last_stage_event_append_stage2 (h : List HEvent) (ts e : String)
    (hst : is_stage_event e = true) :
    last_stage_event (h ++ [⟨ts, e⟩]) = some e :=
  last_stage_event_append_stage h ⟨ts, e⟩ hst

/-- The ticket whose lifecycle refutes C2 as stated: created with consent
`no`, then advanced with the `feedback` action. -/
def c2_t0 : Ticket := mkTicket (some "SN") (some "IS") "no" "a" "b" "c"

def c2_t1 : Ticket := apply_action c2_t0 "feedback" "closed" "d"

/-- Counterexample to C2 as stated: after the `feedback` action the most
recently appended stage-transition event is named `feedback`, but the
status is `closed`, not `feedback`. -/
theorem C2_counterexample :
    ¬(∀ t, ReachableTicket t → ∀ e, last_stage_event t.history = some e →
        t.status = event_base e) := by
  intro hcl
  have hreach : ReachableTicket c2_t1 :=
    ReachableTicket.step
      (ReachableTicket.created (some "SN") (some "IS") "no" "a" "b" "c" (Or.inr rfl))
      (TStep.progress c2_t0 "feedback" "Получение ОС. Спасибо за обратную связь!"
        "closed" "d" rfl)
  have hlast : last_stage_event c2_t1.history = some "feedback" := rfl
  have := hcl c2_t1 hreach "feedback" hlast
  exact absurd this (by decide)

/-- C2 amended: history is append-only (every mutation appends exactly one
event), and the status always equals the status *assigned by* the most
recently appended stage-transition event (`feedback` assigns `closed`,
`remote_scheduled:<text>` assigns `remote_scheduled`, the other five
assign their own names); when no stage-transition event exists yet — the
freshly created ticket — the status is `remote_scheduled` or `tl_wait`
according to the consent flag. -/
theorem C2_history_invariant :
    (∀ t t2, TStep t t2 → ∃ e, t2.history = t.history ++ [e]) ∧
    (∀ t, ReachableTicket t →
      (∀ e, last_stage_event t.history = some e →
        stage_event_status (event_base e) = some t.status) ∧
      (last_stage_event t.history = none →
        t.status = (if t.remote_ok = true then "remote_scheduled" else "tl_wait"))) := by
  constructor
  · intro t t2 hstep
    cases hstep with
    | progress action txt status ts h => exact ⟨⟨ts, action⟩, rfl⟩
    | schedule sched ts => exact ⟨⟨ts, "remote_scheduled:" ++ sched⟩, rfl⟩
  · intro t hr
    induction hr with
    | created serial issue cbData ts1 ts2 ts3 hc =>
        have h2 : is_stage_event ("remote_consent:" ++ cbData) = false := by
          rw [is_stage_event]
          rw [show event_base ("remote_consent:" ++ cbData) = "remote_consent" from
            event_base_append_colon "remote_consent" cbData (by decide)]
          rfl
        have hnone : last_stage_event (mkTicket serial issue cbData ts1 ts2 ts3).history
            = none := by
          rw [mkTicket, last_stage_event]
          simp [List.filter, h2, show is_stage_event "created" = false from rfl]
        constructor
        · intro e he
          rw [hnone] at he
          exact absurd he (by simp)
        · intro _
          rcases hc with rfl | rfl <;> rfl
    | @step tprev t2 hr2 hstep ih =>
        clear ih
        cases hstep with
        | progress action txt status ts h =>
            have hsome : last_stage_event (apply_action tprev action status ts).history
                = some action := by
              rcases progress_table_cases action (txt, status) h with
                ⟨rfl, hst⟩ | ⟨rfl, hst⟩ | ⟨rfl, hst⟩ | ⟨rfl, hst⟩ | ⟨rfl, hst⟩ |
                ⟨rfl, hst⟩ <;>
                exact last_stage_event_append_stage2 tprev.history ts _ (by decide)
            constructor
            · intro e he
              rw [hsome] at he
              obtain rfl := Option.some.inj he
              rcases progress_table_cases action (txt, status) h with
                ⟨rfl, hst⟩ | ⟨rfl, hst⟩ | ⟨rfl, hst⟩ | ⟨rfl, hst⟩ | ⟨rfl, hst⟩ |
                ⟨rfl, hst⟩ <;>
                simp only at hst <;> rw [hst] <;> rfl
            · intro hno
              rw [hsome] at hno
              exact absurd hno (by simp)
        | schedule sched ts =>
            have hb : event_base ("remote_scheduled:" ++ sched) = "remote_scheduled" :=
              event_base_append_colon "remote_scheduled" sched (by decide)
            have hsome : last_stage_event (apply_schedule tprev sched ts).history
                = some ("remote_scheduled:" ++ sched) := by
              apply last_stage_event_append_stage tprev.history
                ⟨ts, "remote_scheduled:" ++ sched⟩
              rw [is_stage_event]
              simp only at hb ⊢
              rw [hb]
              rfl
            constructor
            · intro e he
              rw [hsome] at he
              obtain rfl := Option.some.inj he
              rw [hb]
              rfl
            · intro hno
              rw [hsome] at hno
              exact absurd hno (by simp)

/-- Witness for C2 at concrete inputs: the `feedback` step appends one
event, and on the resulting reachable ticket the assigned-status reading
holds (`feedback` assigned `closed`). -/
theorem C2_history_invariant_witness :
    (∃ e, c2_t1.history = c2_t0.history ++ [e]) ∧
    stage_event_status (event_base "feedback") = some c2_t1.status :=
  ⟨C2_history_invariant.1 c2_t0 c2_t1
      (TStep.progress c2_t0 "feedback" "Получение ОС. Спасибо за обратную связь!"
        "closed" "d" rfl),
   (C2_history_invariant.2 c2_t1
      (ReachableTicket.step
        (ReachableTicket.created (some "SN") (some "IS") "no" "a" "b" "c" (Or.inr rfl))
        (TStep.progress c2_t0 "feedback" "Получение ОС. Спасибо за обратную связь!"
          "closed" "d" rfl))).1 "feedback" rfl⟩


end OsioBot
